import Mathlib

/-!
Verification of the fsvs ignore-pattern subsystem (src/ignore.c).

The definitions below are a shallow embedding of the C code: strings are
`List Char`, fallible functions return `Except`, and the global rule list
`ignore_list` together with `used_ignore_entries` is an explicit
`List IgnoreT`.  The PCRE library is external to the repository; it is
modelled by a small regex AST (`RE`), a parser for the construct subset the
glob translator emits (`parseRE`, standing in for `pcre_compile`), and an
anchored prefix matcher (`pcre_exec`).
-/

deriving instance DecidableEq for Except

/-- PATH_SEPARATOR from the build configuration (Unix build). -/
def PATH_SEPARATOR : Char := '/'

/-- NUL terminator character. -/
def NUL : Char := Char.ofNat 0

/-- C `isspace` for the character set that can occur in pattern files. -/
def isspaceC (c : Char) : Bool :=
  c = ' ' || c = '\t' || c = '\n' || c = '\r' || c = Char.ofNat 11 || c = Char.ofNat 12

/-- C `'0' ... '9'` case range. -/
def isDigitC (c : Char) : Bool := decide ('0' ≤ c ∧ c ≤ '9')

/-- The `'0'...'9'`, `'a'...'z'`, `'A'...'Z'` case ranges of the translator switch. -/
def isAlnumC (c : Char) : Bool :=
  decide (('0' ≤ c ∧ c ≤ '9') ∨ ('a' ≤ c ∧ c ≤ 'z') ∨ ('A' ≤ c ∧ c ≤ 'Z'))

/-- Characters of a string literal, used to write concrete patterns. -/
def strL (s : String) : List Char := s.data

/-- Pattern types PT_SHELL, PT_PCRE, PT_DEVICE, PT_INODE. -/
inductive PatType where
  | shell
  | pcre
  | device
  | inode
deriving DecidableEq

/-- PAT_DEV__UNSPECIFIED; the comparator bits. Modelled from the spec:
ignore.h is not part of the sources; the code requires UNSPECIFIED = 0 and
the three comparator values to be distinct OR-able bits. -/
def PAT_DEV__UNSPECIFIED : Nat := 0

/-- PAT_DEV__LESS bit. -/
def PAT_DEV__LESS : Nat := 1

/-- PAT_DEV__EQUAL bit. -/
def PAT_DEV__EQUAL : Nat := 2

/-- PAT_DEV__GREATER bit. -/
def PAT_DEV__GREATER : Nat := 4

/-- One item of a regex character class: a single character or a range. -/
inductive ClsItem where
  | single : Char → ClsItem
  | range : Char → Char → ClsItem
deriving DecidableEq

/-- Regex AST for the PCRE subset the ignore subsystem emits. -/
inductive RE where
  | eps : RE
  | lit : Char → RE
  | anyc : RE
  | cls : Bool → List ClsItem → RE
  | star : RE → RE
  | seq : RE → RE → RE
  | alt : RE → RE → RE
  | eos : RE
deriving DecidableEq

/-- Error codes returned by the ignore subsystem.  `einval` models the
EINVAL used by STOPIF_CODE_ERR for bad patterns, bad headers and bad insert
positions; `bug` models a BUG_ON assertion failure / out-of-range memmove. -/
inductive IgnErr where
  | einval
  | bug
deriving DecidableEq

/-- struct ignore_t: one compiled ignore/take directive. -/
structure IgnoreT where
  pattern : List Char
  type : PatType
  is_ignore : Bool
  is_icase : Bool
  path_level : Nat
  has_wildwildcard : Bool
  compare_string : List Char
  compiled : RE
  compare : Nat
  major : Nat
  minor : Nat
  has_minor : Bool
  dev : Nat × Nat
  inode : Nat
  is_user_pat : Bool
deriving DecidableEq

/-- Default field values; in C the fields are uninitialised until the parser
sets them, and only fields set by the parser are read afterwards. -/
def IgnoreT.init : IgnoreT :=
  { pattern := [], type := .shell, is_ignore := true, is_icase := false,
    path_level := 0, has_wildwildcard := false, compare_string := [],
    compiled := .eps, compare := 0, major := 0, minor := 0,
    has_minor := false, dev := (0, 0), inode := 0, is_user_pat := false }

/-- The body of one iteration of the do-while loop of
ign___translate_bracketed_expr: given the current character, the zero-based
position inside the bracket expression (-1 = outside) and the backslash
flag, it yields the characters written to dest and the new position and
backslash flag. -/
def bracket_body (c : Char) (pos : Int) (bs : Bool) : List Char × Int × Bool :=
  if bs then
    ([c], pos, false)
  else if pos = 0 ∧ (c = '!' ∨ c = '^') then
    (['^'], pos, false)
  else
    let pos' : Int := if c = ']' ∧ 0 < pos then -1 else pos + 1
    ([c], pos', c = '\\')

/-- ign___translate_bracketed_expr: runs `bracket_body` over the source,
continuing while source characters remain and the position marker is still
inside the expression; returns the emitted characters and the remaining
source.  (The ENOSPC buffer checks cannot fire: the caller allocates five
bytes per input character.) -/
def ign___translate_bracketed_expr : List Char → Int → Bool → List Char × List Char
  | [], _, _ => ([], [])
  | c :: rest, pos, bs =>
    let e := bracket_body c pos bs
    if rest ≠ [] ∧ 0 ≤ e.2.1 then
      let d := ign___translate_bracketed_expr rest e.2.1 e.2.2
      (e.1 ++ d.1, d.2)
    else
      (e.1, rest)

/-- The shell-glob to PCRE translation loop of ign__compile_pattern
(PT_SHELL branch), fuelled by the length of the source (each iteration
consumes at least one character, so `length + 1` fuel is exact).
Returns the translated characters and the has_wildwildcard flag. -/
def shellLoopF : Nat → List Char → Bool → List Char × Bool
  | 0, _, _ => ([], false)
  | _ + 1, [], _ => ([], false)
  | f + 1, c :: rest, bs =>
    if bs then
      let p := shellLoopF f rest false
      (c :: p.1, p.2)
    else if c = '*' then
      match rest with
      | '*' :: _ =>
        ('.' :: '*' :: (shellLoopF f (rest.dropWhile (fun x => x = '*')) false).1, true)
      | _ =>
        let p := shellLoopF f rest false
        ('[' :: '^' :: PATH_SEPARATOR :: ']' :: '*' :: p.1, p.2)
    else if c = '?' then
      let p := shellLoopF f rest false
      ('.' :: p.1, p.2)
    else if c = '[' then
      let b := ign___translate_bracketed_expr (c :: rest) (-1) false
      let p := shellLoopF f b.2 false
      (b.1 ++ p.1, p.2)
    else if isAlnumC c || c = PATH_SEPARATOR || c = '-' then
      let p := shellLoopF f rest false
      (c :: p.1, p.2)
    else if c = '\\' then
      let p := shellLoopF f rest true
      (c :: p.1, p.2)
    else
      let p := shellLoopF f rest false
      ('\\' :: c :: p.1, p.2)

/-- The PT_SHELL translation of ign__compile_pattern: run the loop, then,
when at least one character was consumed, append the `$` anchor; when the
last source character was PATH_SEPARATOR, the character before the `$`
(dest[-2]) is overwritten with `(` and `|/)` is appended, turning the
trailing separator into the `($|/)` group. -/
def ign__translate (src : List Char) : List Char × Bool :=
  let cw := shellLoopF (src.length + 1) src false
  match src.getLast? with
  | none => cw
  | some c =>
    if c = PATH_SEPARATOR then (cw.1.dropLast ++ strL "($|/)", cw.2)
    else (cw.1 ++ ['$'], cw.2)

/-- Membership test for a character class. -/
def clsMem (items : List ClsItem) (c : Char) : Bool :=
  items.any (fun it =>
    match it with
    | .single a => decide (c = a)
    | .range a b => decide (a ≤ c ∧ c ≤ b))

/-- Parses the items of a character class up to the closing `]`
(PCRE rules: an escaped character is literal, `x-y` is a range unless the
`-` is last, an unterminated class is a compile error). -/
def parseClsItems : List Char → Option (List ClsItem × List Char)
  | [] => none
  | ']' :: rest => some ([], rest)
  | '\\' :: c :: rest =>
    (parseClsItems rest).map (fun p => (.single c :: p.1, p.2))
  | '\\' :: [] => none
  | c :: '-' :: d :: rest =>
    if d = ']' then some ([.single c, .single '-'], rest)
    else (parseClsItems rest).map (fun p => (.range c d :: p.1, p.2))
  | c :: rest =>
    (parseClsItems rest).map (fun p => (.single c :: p.1, p.2))

/-- Parses a character class after the opening `[`: optional `^` negation,
then (PCRE rule) a `]` in first content position is a literal member. -/
def parseCls (s : List Char) : Option (Bool × List ClsItem × List Char) :=
  let neg := match s with
    | '^' :: _ => true
    | _ => false
  let s1 := match s with
    | '^' :: r => r
    | _ => s
  match s1 with
  | ']' :: r2 => (parseClsItems r2).map (fun p => (neg, .single ']' :: p.1, p.2))
  | _ => (parseClsItems s1).map (fun p => (neg, p.1, p.2))

mutual

/-- Parses one regex atom: a group, a class, an escaped literal, `.`, `$`
or a plain literal.  Covers the construct subset the glob translator emits;
PCRE features outside it are rejected, modelling a pcre_compile failure. -/
def parseAtomF : Nat → List Char → Option (RE × List Char)
  | 0, _ => none
  | f + 1, s =>
    match s with
    | [] => none
    | '(' :: rest =>
      match parseAltF f rest with
      | some (r, ')' :: rest2) => some (r, rest2)
      | _ => none
    | '[' :: rest =>
      match parseCls rest with
      | some (neg, items, rest2) => some (.cls neg items, rest2)
      | none => none
    | '\\' :: c :: rest => some (.lit c, rest)
    | '\\' :: [] => none
    | '.' :: rest => some (.anyc, rest)
    | '$' :: rest => some (.eos, rest)
    | c :: rest =>
      if c = '*' || c = '+' || c = '?' || c = '|' || c = ')' || c = '^' then none
      else some (.lit c, rest)

/-- Parses a sequence of atoms with optional postfix `*`, stopping at `|`,
`)` or the end of the pattern. -/
def parseSeqF : Nat → List Char → Option (RE × List Char)
  | 0, _ => none
  | f + 1, s =>
    match s with
    | [] => some (.eps, [])
    | '|' :: _ => some (.eps, s)
    | ')' :: _ => some (.eps, s)
    | _ =>
      match parseAtomF f s with
      | none => none
      | some (a, rest) =>
        let st := match rest with
          | '*' :: r2 => (RE.star a, r2)
          | _ => (a, rest)
        match parseSeqF f st.2 with
        | none => none
        | some (b, rest3) => some (.seq st.1 b, rest3)

/-- Parses an alternation of sequences separated by `|`. -/
def parseAltF : Nat → List Char → Option (RE × List Char)
  | 0, _ => none
  | f + 1, s =>
    match parseSeqF f s with
    | none => none
    | some (a, rest) =>
      match rest with
      | '|' :: rest2 =>
        match parseAltF f rest2 with
        | some (b, rest3) => some (.alt a b, rest3)
        | none => none
      | _ => some (a, rest)

end

/-- pcre_compile model: parse the regex source in full. -/
def parseRE (s : List Char) : Option RE :=
  match parseAltF (3 * s.length + 3) s with
  | some (r, []) => some r
  | _ => none

/-- Structural size of a regex, used to bound the matcher fuel. -/
def reSize : RE → Nat
  | .eps => 1
  | .lit _ => 1
  | .anyc => 1
  | .cls _ _ => 1
  | .star r => reSize r + 1
  | .seq a b => reSize a + reSize b + 1
  | .alt a b => reSize a + reSize b + 1
  | .eos => 1

/-- The ASCII other-case counterpart of a character, as used by
PCRE_CASELESS outside UTF mode. -/
def otherCase (c : Char) : Char :=
  if 'A' ≤ c ∧ c ≤ 'Z' then Char.ofNat (c.toNat + 32)
  else if 'a' ≤ c ∧ c ≤ 'z' then Char.ofNat (c.toNat - 32)
  else c

/-- Matching semantics: the list of possible remainders of the subject
after the regex has consumed a prefix.  `.` matches any character
(PCRE_DOTALL); `$` asserts the end of the subject; star iterations that
consume nothing are dropped (they add no new remainders).  `icase` is
PCRE_CASELESS from the rule's `i` modifier: a literal or class member also
matches the subject character's other case.  Fuelled; the wrapper supplies
fuel exceeding the recursion depth. -/
def reMatchF (icase : Bool) : Nat → RE → List Char → List (List Char)
  | 0, _, _ => []
  | f + 1, r, s =>
    match r with
    | .eps => [s]
    | .lit c =>
      match s with
      | [] => []
      | x :: xs => if x = c || (icase && otherCase x = c) then [xs] else []
    | .anyc =>
      match s with
      | [] => []
      | _ :: xs => [xs]
    | .cls neg items =>
      match s with
      | [] => []
      | x :: xs =>
        if (clsMem items x || (icase && clsMem items (otherCase x))) ≠ neg then [xs]
        else []
    | .eos => if s.isEmpty then [s] else []
    | .seq a b => (reMatchF icase f a s).flatMap (fun t => reMatchF icase f b t)
    | .alt a b => reMatchF icase f a s ++ reMatchF icase f b s
    | .star a =>
      s :: ((reMatchF icase f a s).filter (fun t => t.length < s.length)).flatMap
        (fun t => reMatchF icase f (.star a) t)

/-- pcre_exec model with PCRE_ANCHORED: the subject matches when some
prefix of it is accepted (the translator's appended `$` is what forces a
full match for glob rules); `icase` carries the PCRE_CASELESS flag the
compile step bakes into the pattern. -/
def pcre_exec (icase : Bool) (r : RE) (subject : List Char) : Bool :=
  !(reMatchF icase ((reSize r + 2) * (subject.length + 2)) r subject).isEmpty

/-- Accumulates digits of the given base, C strtoul-style: stops at the
first character that is not a digit of the base. -/
def grabDigits (base : Nat) : List Char → Nat → Nat × List Char
  | [], acc => (acc, [])
  | c :: rest, acc =>
    let v : Option Nat :=
      if isDigitC c then some (c.toNat - 48)
      else if decide ('a' ≤ c ∧ c ≤ 'f') then some (c.toNat - 97 + 10)
      else if decide ('A' ≤ c ∧ c ≤ 'F') then some (c.toNat - 65 + 10)
      else none
    match v with
    | some v => if v < base then grabDigits base rest (acc * base + v) else (acc, c :: rest)
    | none => (acc, c :: rest)

/-- strtoul(s, &cp, 0): base auto-detection (0x → hex, leading 0 → octal,
else decimal).  Returns the value, the rest, and whether any character was
consumed (cp != pattern in the C code).  Leading whitespace/sign handling
of strtoul is not modelled; patterns reaching it start at the number. -/
def strtoul0 (s : List Char) : Nat × List Char × Bool :=
  match s with
  | '0' :: x :: rest =>
    if x = 'x' || x = 'X' then
      match rest with
      | c :: _ =>
        if isDigitC c || decide ('a' ≤ c ∧ c ≤ 'f') || decide ('A' ≤ c ∧ c ≤ 'F') then
          let p := grabDigits 16 rest 0
          (p.1, p.2, true)
        else (0, x :: rest, true)
      | [] => (0, x :: rest, true)
    else
      let p := grabDigits 8 (x :: rest) 0
      (p.1, p.2, true)
  | ['0'] => (0, [], true)
  | _ =>
    let p := grabDigits 10 s 0
    (p.1, p.2, decide (p.2.length < s.length))

/-- The modifier loop of ign___init_pattern_into: consumes `t` (take) and
`i` (ignore case) prefixes; running out of characters after a modifier is
the "pattern not \0-terminated" EINVAL. -/
def scanMods : List Char → Bool → Bool → Except IgnErr (List Char × Bool × Bool)
  | [], _, _ => .error .einval
  | c :: rest, isIgn, icase =>
    if c = 't' then
      if rest = [] then .error .einval else scanMods rest false icase
    else if c = 'i' then
      if rest = [] then .error .einval else scanMods rest isIgn true
    else .ok (c :: rest, isIgn, icase)

/-- The comparator loop of the DEVICE branch: ORs in a bit for each
leading `<`, `=`, `>`. -/
def scanCmp : List Char → Nat → List Char × Nat
  | '<' :: r, acc => scanCmp r (acc ||| PAT_DEV__LESS)
  | '=' :: r, acc => scanCmp r (acc ||| PAT_DEV__EQUAL)
  | '>' :: r, acc => scanCmp r (acc ||| PAT_DEV__GREATER)
  | s, acc => (s, acc)

/-- The DEVICE: branch of ign___init_pattern_into.  `s` is the text after
the prefix, `cmpStr` the text including the prefix (compare_string is set
before the prefix is skipped). -/
def parseDevice (base : IgnoreT) (s cmpStr : List Char) : Except IgnErr IgnoreT :=
  let sc := scanCmp s PAT_DEV__UNSPECIFIED
  let cmp := if sc.2 = PAT_DEV__UNSPECIFIED then PAT_DEV__EQUAL else sc.2
  let mjp := strtoul0 sc.1
  if !mjp.2.2 then .error .einval
  else
    match mjp.2.1 with
    | [] =>
      .ok { base with
            type := .device
            compare_string := cmpStr
            compare := cmp
            major := mjp.1
            minor := PAT_DEV__UNSPECIFIED
            has_minor := false }
    | c :: s3 =>
      if c ≠ ':' then .error .einval
      else
        let mnp := strtoul0 s3
        if !mnp.2.2 then .error .einval
        else if mnp.2.1 ≠ [] then .error .einval
        else
          .ok { base with
                type := .device
                compare_string := cmpStr
                compare := cmp
                major := mjp.1
                minor := mnp.1
                has_minor := true }

/-- The INODE: branch of ign___init_pattern_into: `major:minor:inode`,
nothing may follow the inode.  MKDEV is modelled as a pair. -/
def parseInode (base : IgnoreT) (s cmpStr : List Char) : Except IgnErr IgnoreT :=
  let mjp := strtoul0 s
  if !mjp.2.2 then .error .einval
  else
    match mjp.2.1 with
    | ':' :: s2 =>
      let mnp := strtoul0 s2
      if !mnp.2.2 then .error .einval
      else
        match mnp.2.1 with
        | ':' :: s4 =>
          let inp := strtoul0 s4
          if !inp.2.2 then .error .einval
          else if inp.2.1 ≠ [] then .error .einval
          else
            .ok { base with
                  type := .inode
                  compare_string := cmpStr
                  dev := (mjp.1, mnp.1)
                  inode := inp.1 }
        | _ => .error .einval
    | _ => .error .einval

/-- ign__compile_pattern: PT_PCRE uses the source verbatim, PT_SHELL first
translates the glob; pcre_compile is modelled by parseRE, whose failure is
the "pattern not valid" EINVAL. -/
def ign__compile_pattern (ign : IgnoreT) : Except IgnErr IgnoreT :=
  match ign.type with
  | .pcre =>
    match parseRE ign.compare_string with
    | some r => .ok { ign with compiled := r }
    | none => .error .einval
  | .shell =>
    let t := ign__translate ign.compare_string
    match parseRE t.1 with
    | some r =>
      .ok { ign with compare_string := t.1, has_wildwildcard := t.2, compiled := r }
    | none => .error .einval
  | _ => .error .bug

/-- ign___init_pattern_into after the leading-whitespace skip: modifier
letters, then prefix dispatch on DEVICE:, INODE:, PCRE:, ./ .
The raw `pattern` field is filled in by the wrapper below. -/
def ign___init_pattern_core (pat1 : List Char) : Except IgnErr IgnoreT :=
  if pat1 = [] then .error .einval
  else
    match scanMods pat1 true false with
    | .error e => .error e
    | .ok (pat, isIgn, icase) =>
      let base : IgnoreT := { IgnoreT.init with is_ignore := isIgn, is_icase := icase }
      if (strL "DEVICE:").isPrefixOf pat then
        parseDevice base (pat.drop 7) pat
      else if (strL "INODE:").isPrefixOf pat then
        parseInode base (pat.drop 6) pat
      else
        let tp : Option (PatType × List Char) :=
          if (strL "PCRE:").isPrefixOf pat then some (.pcre, pat.drop 5)
          else if (strL "./").isPrefixOf pat then some (.shell, pat)
          else none
        match tp with
        | none => .error .einval
        | some (ty, p2) =>
          if p2.length < 3 then .error .einval
          else
            ign__compile_pattern
              { base with
                type := ty
                path_level := p2.count PATH_SEPARATOR
                compare_string := p2 }

/-- ign___init_pattern_into: skip leading whitespace (a pattern of only
whitespace is the "pattern has no pattern" EINVAL inside the core), then
parse; the `pattern` field keeps the whitespace-trimmed raw text. -/
def ign___init_pattern_into (pat0 : List Char) : Except IgnErr IgnoreT :=
  let pat1 := pat0.dropWhile isspaceC
  match ign___init_pattern_core pat1 with
  | .ok r => .ok { r with pattern := pat1 }
  | .error e => .error e

/-- One pattern through ign___init_pattern_into plus the caller's
`ign->is_user_pat = user_pattern` assignment from ign__new_pattern. -/
def ign__new_rule (txt : List Char) (user : Bool) : Except IgnErr IgnoreT :=
  match ign___init_pattern_into txt with
  | .ok r => .ok { r with is_user_pat := user }
  | .error e => .error e

/-- Classification result returned through `*is_ignored`:
+1 = ignored, -1 = taken (on a take-list), 0 = unknown. -/
inductive Classification where
  | ignored
  | taken
  | unclassified
deriving DecidableEq

/-- The stat fields of struct sstat_t the ignore subsystem reads:
device major/minor, inode, and S_ISDIR of the mode. -/
structure SStatT where
  dev_major : Nat
  dev_minor : Nat
  ino : Nat
  isdir : Bool
deriving DecidableEq

/-- The fields of struct estat the evaluator reads: the parent directory's
stat (none for the root), the entry's own stat, the root-relative path
built by ops__build_path, and whether ops___filetype reports FT_IGNORE
(both helpers live outside ignore.c; they are modelled as input fields). -/
structure Estat where
  parentSt : Option SStatT
  st : SStatT
  path : List Char
  ft_ignore : Bool
deriving DecidableEq

/-- ign___compare_dev: three-way comparison of the stat's device against
the rule's major (and minor when has_minor). -/
def ign___compare_dev (st : SStatT) (ign : IgnoreT) : Int :=
  if ign.major < st.dev_major then 2
  else if st.dev_major < ign.major then -2
  else if !ign.has_minor then 0
  else if ign.minor < st.dev_minor then 1
  else if st.dev_minor < ign.minor then -1
  else 0

/-- The `status` value after one iteration of the rule loop of
ign__is_ignore, where 0 means "the rule matches" and `status` is the value
the previous iteration left behind (0 when the loop is entered).
PT_SHELL/PT_PCRE set it to the pcre_exec result (0 on match,
PCRE_ERROR_NOMATCH = -1 otherwise).  For PT_DEVICE the compared stat is
the parent directory's for directories and the entry's own otherwise; the
comparator switch has cases only for the five meaningful bit combinations
and NO default, so any other combination (e.g. LESS|GREATER from
`DEVICE:<>3`) leaves the incoming status in place, and the following
`status = !status` then reports a match exactly when the previous rule
left a nonzero status.  PT_INODE is modelled from the spec:
dir___f_sort_by_inodePP (direnum.c) compares (dev, inode). -/
def ign__test_status (ign : IgnoreT) (sts : Estat) (dirSt : SStatT) (status : Int) : Int :=
  match ign.type with
  | .shell => if pcre_exec ign.is_icase ign.compiled sts.path then 0 else -1
  | .pcre => if pcre_exec ign.is_icase ign.compiled sts.path then 0 else -1
  | .device =>
    let st := if sts.st.isdir then dirSt else sts.st
    let c := ign___compare_dev st ign
    let s1 : Int :=
      if ign.compare = PAT_DEV__LESS then (if c < 0 then 1 else 0)
      else if ign.compare = (PAT_DEV__LESS ||| PAT_DEV__EQUAL) then (if c ≤ 0 then 1 else 0)
      else if ign.compare = PAT_DEV__EQUAL then (if c = 0 then 1 else 0)
      else if ign.compare = (PAT_DEV__EQUAL ||| PAT_DEV__GREATER) then (if 0 ≤ c then 1 else 0)
      else if ign.compare = PAT_DEV__GREATER then (if 0 < c then 1 else 0)
      else status
    if s1 = 0 then 1 else 0
  | .inode =>
    if ign.dev = (sts.st.dev_major, sts.st.dev_minor) ∧ ign.inode = sts.st.ino then 0
    else 1

/-- The status-independent match predicate: for PT_SHELL, PT_PCRE,
PT_INODE, and PT_DEVICE with one of the five comparator combinations the
switch handles, this is exactly "ign__test_status ... = 0" whatever the
incoming status (theorem test_status_eq_matches below); for a device rule
with an unhandled comparator combination the program's outcome depends on
the previous rule's status and this predicate does not apply (statusIndep
is false there). -/
def ignMatchesEntry (ign : IgnoreT) (sts : Estat) (dirSt : SStatT) : Bool :=
  match ign.type with
  | .shell => pcre_exec ign.is_icase ign.compiled sts.path
  | .pcre => pcre_exec ign.is_icase ign.compiled sts.path
  | .device =>
    let st := if sts.st.isdir then dirSt else sts.st
    let c := ign___compare_dev st ign
    if ign.compare = PAT_DEV__LESS then decide (c < 0)
    else if ign.compare = (PAT_DEV__LESS ||| PAT_DEV__EQUAL) then decide (c ≤ 0)
    else if ign.compare = PAT_DEV__EQUAL then decide (c = 0)
    else if ign.compare = (PAT_DEV__EQUAL ||| PAT_DEV__GREATER) then decide (0 ≤ c)
    else if ign.compare = PAT_DEV__GREATER then decide (0 < c)
    else false
  | .inode =>
    decide (ign.dev = (sts.st.dev_major, sts.st.dev_minor) ∧ ign.inode = sts.st.ino)

/-- Whether a rule's match outcome is independent of the status left by the
previous rule: every rule kind except a device rule whose comparator
combination is missing from the evaluator's switch. -/
def statusIndep (ign : IgnoreT) : Bool :=
  match ign.type with
  | .device =>
    ign.compare = PAT_DEV__LESS
    || ign.compare = (PAT_DEV__LESS ||| PAT_DEV__EQUAL)
    || ign.compare = PAT_DEV__EQUAL
    || ign.compare = (PAT_DEV__EQUAL ||| PAT_DEV__GREATER)
    || ign.compare = PAT_DEV__GREATER
  | _ => true

/-- The scan over ignore_list in ign__is_ignore: each rule is tested with
the status value the previous test left (the C `status` variable); a test
yielding 0 decides (+1 for an ignore pattern, -1 for a take pattern); no
match leaves the entry unclassified. -/
def firstDecision : List IgnoreT → Estat → SStatT → Int → Classification
  | [], _, _, _ => .unclassified
  | ign :: rest, sts, dirSt, status =>
    if ign__test_status ign sts dirSt status = 0 then
      if ign.is_ignore then .ignored else .taken
    else firstDecision rest sts dirSt (ign__test_status ign sts dirSt status)

/-- ign__is_ignore: the root (no parent) is never ignored; an entry of
unsupported file type is ignored outright; otherwise the rules are tested
in list order, with `status` 0 on loop entry. -/
def ign__is_ignore (rules : List IgnoreT) (sts : Estat) : Classification :=
  match sts.parentSt with
  | none => .unclassified
  | some dirSt =>
    if sts.ft_ignore then .ignored
    else firstDecision rules sts dirSt 0

/-- Decimal digit characters. -/
def digitChar : Nat → Char
  | 0 => '0'
  | 1 => '1'
  | 2 => '2'
  | 3 => '3'
  | 4 => '4'
  | 5 => '5'
  | 6 => '6'
  | 7 => '7'
  | 8 => '8'
  | _ => '9'

/-- Decimal rendering, fuelled for structural recursion. -/
def natDigitsAux : Nat → Nat → List Char
  | 0, _ => []
  | f + 1, n => if n < 10 then [digitChar n] else natDigitsAux f (n / 10) ++ [digitChar (n % 10)]

/-- snprintf "%u": decimal digits of n. -/
def natDigits (n : Nat) : List Char := natDigitsAux (n + 1) n

/-- ign__save_ignorelist: the decimal count of user patterns, a newline,
then each user pattern's raw text followed by NUL and newline.  Built-in
patterns are skipped by the is_user_pat test in both loops. -/
def ign__save_ignorelist (rules : List IgnoreT) : List Char :=
  natDigits ((rules.filter (fun r => r.is_user_pat)).length) ++ ['\n']
  ++ (rules.filter (fun r => r.is_user_pat)).flatMap (fun r => r.pattern ++ [NUL, '\n'])

/-- sscanf("%u"): leading whitespace skipped, then at least one decimal
digit. -/
def foldDigits (ds : List Char) : Nat := ds.foldl (fun a c => a * 10 + (c.toNat - 48)) 0

/-- Header parse of ign__load_list. -/
def parseUIntHeader (s : List Char) : Option Nat :=
  let s1 := s.dropWhile isspaceC
  let ds := s1.takeWhile isDigitC
  if ds = [] then none else some (foldDigits ds)

/-- strchr(memory, newline): the text after the first newline, if any. -/
def afterFirstNL : List Char → Option (List Char)
  | [] => none
  | c :: rest => if c = '\n' then some rest else afterFirstNL rest

/-- The pattern-filling loop of ign__load_list: up to `count` strings, each
read to its NUL terminator and parsed as a user pattern; the cursor then
advances past the NUL, and the loop breaks early when it reaches the end of
the buffer.  Any parse error aborts the whole load. -/
def loadLoop : Nat → List Char → Except IgnErr (List IgnoreT)
  | 0, _ => .ok []
  | n + 1, cp =>
    let str := cp.takeWhile (fun c => c ≠ NUL)
    match ign__new_rule str true with
    | .error e => .error e
    | .ok r =>
      let cp2 := cp.drop (str.length + 1)
      if cp2 = [] then .ok [r]
      else
        match loadLoop n cp2 with
        | .error e => .error e
        | .ok rs => .ok (r :: rs)

/-- ign__load_list on the mmap'ed file contents: a buffer without a newline
means "no entries"; a header without a number is the "ignore header is
invalid" EINVAL; then the patterns are loaded. -/
def ign__load_list (buf : List Char) : Except IgnErr (List IgnoreT) :=
  match afterFirstNL buf with
  | none => .ok []
  | some rest =>
    match parseUIntHeader buf with
    | none => .error .einval
    | some count => loadLoop count rest

/-- The rule list visible after ign__load_list including its cleanup
`if (status) used_ignore_entries = 0;`: on any error the list used for
matching is empty. -/
def ign__load_result (buf : List Char) : List IgnoreT :=
  match ign__load_list buf with
  | .ok l => l
  | .error _ => []

/-- PATTERN_POSITION_END sentinel ("append").  Modelled from the spec:
ignore.h is not in the sources; ign__work treats END as the default and
any index 0 ≤ k ≤ used_ignore_entries as a real position, so END is the
out-of-band value -1 and START is index 0. -/
def PATTERN_POSITION_END : Int := -1

/-- PATTERN_POSITION_START: insert at the first user pattern. -/
def PATTERN_POSITION_START : Int := 0

/-- The parse loop of ign__new_pattern: each pattern text through
ign___init_pattern_into with the caller's user flag; the first error
aborts. -/
def parseNewRules : List (List Char) → Bool → Except IgnErr (List IgnoreT)
  | [], _ => .ok []
  | t :: ts, user =>
    match ign__new_rule t user with
    | .error e => .error e
    | .ok r =>
      match parseNewRules ts user with
      | .error e => .error e
      | .ok rs => .ok (r :: rs)

/-- ign__new_pattern: for PATTERN_POSITION_END (or an empty list) the new
patterns are appended; otherwise the insertion point is the index of the
first user pattern plus the position, the tail from there is shifted by
`count` (the memmove), and the new patterns fill the gap.  An insertion
point outside the list is the BUG_ON / out-of-range memmove. -/
def ign__new_pattern (rules : List IgnoreT) (texts : List (List Char))
    (user : Bool) (position : Int) : Except IgnErr (List IgnoreT) :=
  if position ≠ PATTERN_POSITION_END ∧ 0 < rules.length then
    let i : Int := (rules.findIdx (fun r => r.is_user_pat) : Nat) + position
    if i > (rules.length : Int) ∨ i < 0 then .error .bug
    else
      match parseNewRules texts user with
      | .error e => .error e
      | .ok news => .ok (rules.take i.toNat ++ news ++ rules.drop i.toNat)
  else
    match parseNewRules texts user with
    | .error e => .error e
    | .ok news => .ok (rules ++ news)

/-- The `at=k` branch of ign__work: the position is rejected with EINVAL
when it exceeds used_ignore_entries (the total list length, built-in
patterns included), then handed to ign__new_pattern with user flag set. -/
def ign__work_at (rules : List IgnoreT) (k : Int) (texts : List (List Char)) :
    Except IgnErr (List IgnoreT) :=
  if k > (rules.length : Int) then .error .einval
  else ign__new_pattern rules texts true k

/-- A rule whose raw text survives a save/load round trip: it contains no
NUL (a C string cannot) and re-parsing it succeeds without the
leading-whitespace trim altering it. -/
def GoodRule (r : IgnoreT) : Bool :=
  decide (NUL ∉ r.pattern) &&
  match ign___init_pattern_into r.pattern with
  | .ok r2 => decide (r2.pattern = r.pattern)
  | .error _ => false

/-- The parsed rule for a pattern text, IgnoreT.init when parsing fails
(all uses below are on texts whose parse is proven to succeed). -/
def ruleOf (s : String) (user : Bool) : IgnoreT :=
  match ign__new_rule (strL s) user with
  | .ok r => r
  | .error _ => IgnoreT.init

/-- A pattern through the whole pipeline (parse, translate, compile) and
its compiled matcher applied to a path. -/
def globRuleMatches (pat subj : List Char) : Bool :=
  match ign__new_rule pat true with
  | .ok r => pcre_exec r.is_icase r.compiled subj
  | .error _ => false

/-- Whether a text contains two consecutive `*` characters anywhere. -/
def hasDoubleStar : List Char → Bool
  | '*' :: '*' :: _ => true
  | _ :: rest => hasDoubleStar rest
  | [] => false

/-- A built-in (system) rule, as waa__init would install one. -/
def demo_builtin_rule : IgnoreT := ruleOf "./b" false

/-- A user rule. -/
def demo_user_rule : IgnoreT := ruleOf "./u" true

/-- The entry ./keep.txt: a plain file below the root. -/
def keepEntry : Estat :=
  { parentSt := some ⟨8, 1, 2, true⟩, st := ⟨8, 1, 100, false⟩,
    path := strL "./keep.txt", ft_ignore := false }

/-- A rule-list file whose first pattern is valid and whose second is not:
header 2, then "./a", then "XYZ". -/
def demoBuf : List Char := strL "2\n./a" ++ [NUL] ++ strL "\nXYZ" ++ [NUL] ++ strL "\n"

/-- DEVICE:3 parsed. -/
def devEq3 : IgnoreT := ruleOf "DEVICE:3" true

/-- DEVICE:<3 parsed. -/
def devLt3 : IgnoreT := ruleOf "DEVICE:<3" true

/-- DEVICE:3:1 parsed. -/
def devEq31 : IgnoreT := ruleOf "DEVICE:3:1" true

/-- The per-pattern body of the save loop. -/
def flatBody (rs : List IgnoreT) : List Char :=
  rs.flatMap (fun r => r.pattern ++ [NUL, '\n'])

theorem test_status_eq_matches (ign : IgnoreT) (sts : Estat) (dirSt : SStatT)
    (s : Int) (h : statusIndep ign = true) :
    ign__test_status ign sts dirSt s = 0 ↔ ignMatchesEntry ign sts dirSt = true := by
  cases hty : ign.type with
  | shell =>
    unfold ign__test_status ignMatchesEntry
    rw [hty]
    cases hpe : pcre_exec ign.is_icase ign.compiled sts.path <;> simp
  | pcre =>
    unfold ign__test_status ignMatchesEntry
    rw [hty]
    cases hpe : pcre_exec ign.is_icase ign.compiled sts.path <;> simp
  | inode =>
    unfold ign__test_status ignMatchesEntry
    rw [hty]
    by_cases hc : ign.dev = (sts.st.dev_major, sts.st.dev_minor) ∧ ign.inode = sts.st.ino
    · simp [hc]
    · simp [hc]
  | device =>
    unfold statusIndep at h
    rw [hty] at h
    simp only [Bool.or_eq_true, decide_eq_true_eq] at h
    unfold ign__test_status ignMatchesEntry
    rw [hty]
    have hn1 : (1 ||| 2 : Nat) = 3 := by decide
    have hn2 : (2 ||| 4 : Nat) = 6 := by decide
    rcases h with ((((h1 | h1) | h1) | h1) | h1) <;>
      simp only [h1, PAT_DEV__LESS, PAT_DEV__EQUAL, PAT_DEV__GREATER, hn1, hn2] <;>
      norm_num

theorem firstDecision_eq_of_first_match (rules : List IgnoreT) (sts : Estat)
    (dirSt : SStatT) (i : Nat) (s : Int)
    (hind : ∀ r ∈ rules, statusIndep r = true)
    (hi : i < rules.length)
    (hm : ignMatchesEntry (rules.get ⟨i, hi⟩) sts dirSt = true)
    (hprev : ∀ j (hj : j < i),
      ignMatchesEntry (rules.get ⟨j, Nat.lt_trans hj hi⟩) sts dirSt = false) :
    firstDecision rules sts dirSt s =
      (if (rules.get ⟨i, hi⟩).is_ignore then Classification.ignored else .taken) := by
  induction rules generalizing i s with
  | nil => exact absurd hi (Nat.not_lt_zero i)
  | cons r rs ih =>
    have hr : statusIndep r = true := hind r (by simp)
    cases i with
    | zero =>
      have hm0 : ignMatchesEntry r sts dirSt = true := hm
      have ht : ign__test_status r sts dirSt s = 0 :=
        (test_status_eq_matches r sts dirSt s hr).mpr hm0
      show (if ign__test_status r sts dirSt s = 0 then
              if r.is_ignore = true then Classification.ignored else .taken
            else firstDecision rs sts dirSt (ign__test_status r sts dirSt s)) = _
      rw [if_pos ht]
      rfl
    | succ i =>
      have h0 : ignMatchesEntry r sts dirSt = false := hprev 0 (Nat.succ_pos i)
      have hm1 : ignMatchesEntry (rs.get ⟨i, Nat.lt_of_succ_lt_succ hi⟩) sts dirSt = true := hm
      have ht : ¬(ign__test_status r sts dirSt s = 0) := by
        intro hz
        have := (test_status_eq_matches r sts dirSt s hr).mp hz
        rw [h0] at this
        cases this
      show (if ign__test_status r sts dirSt s = 0 then
              if r.is_ignore = true then Classification.ignored else .taken
            else firstDecision rs sts dirSt (ign__test_status r sts dirSt s)) = _
      rw [if_neg ht]
      exact ih i (ign__test_status r sts dirSt s)
        (fun x hx => hind x (by simp [hx]))
        (Nat.lt_of_succ_lt_succ hi) hm1
        (fun j hj => hprev (j + 1) (Nat.succ_lt_succ hj))

/-- C1 (amended): classify scans the rules in list order carrying the C
status value from rule to rule; every rule whose match outcome is
independent of that status (all kinds except a device rule with a
comparator combination missing from the switch) decides as the first one
whose matcher matches: sense Ignore gives Ignored, sense Take gives Taken.
Consequently [Ignore "./**", Take "./keep.txt"] classifies ./keep.txt as
Ignored (the first rule already matches), and the reversed list classifies
it Taken.  For a device rule with an unhandled comparator, such as
DEVICE:<>3, the switch leaves the previous status in place and the rule
matches exactly when the previous rule did not: behind a non-matching glob
it matches (Ignored below), at the head of the list it does not (the take
rule then classifies Taken). -/
theorem c1_first_match_wins :
    (∀ (rules : List IgnoreT) (sts : Estat) (dirSt : SStatT) (i : Nat),
      sts.parentSt = some dirSt → sts.ft_ignore = false →
      (∀ r ∈ rules, statusIndep r = true) →
      ∀ (hi : i < rules.length),
      ignMatchesEntry (rules.get ⟨i, hi⟩) sts dirSt = true →
      (∀ j (hj : j < i),
        ignMatchesEntry (rules.get ⟨j, Nat.lt_trans hj hi⟩) sts dirSt = false) →
      ign__is_ignore rules sts =
        (if (rules.get ⟨i, hi⟩).is_ignore then Classification.ignored else .taken))
    ∧ statusIndep (ruleOf "DEVICE:<>3" true) = false
    ∧ ign__is_ignore [ruleOf "./nomatch" true, ruleOf "DEVICE:<>3" true,
        ruleOf "t./keep.txt" true] keepEntry = Classification.ignored
    ∧ ign__is_ignore [ruleOf "DEVICE:<>3" true, ruleOf "t./keep.txt" true] keepEntry
        = Classification.taken := by
  refine ⟨?_, by decide, by decide, by decide⟩
  intro rules sts dirSt i hp hf hind hi hm hprev
  unfold ign__is_ignore
  rw [hp, hf]
  simp only [Bool.false_eq_true, if_false]
  exact firstDecision_eq_of_first_match rules sts dirSt i 0 hind hi hm hprev

/-- C1 counterexample: for the list [Ignore "./**", Take "./keep.txt"] the
claim asserts ./keep.txt classifies Taken; the code classifies it Ignored,
because the first matching rule (the ignore rule) decides. -/
theorem c1_counterexample :
    ign__is_ignore [ruleOf "./**" true, ruleOf "t./keep.txt" true] keepEntry
      = Classification.ignored
    ∧ ign__is_ignore [ruleOf "./**" true, ruleOf "t./keep.txt" true] keepEntry
      ≠ Classification.taken := by
  exact ⟨by decide, by decide⟩

/-- C1 witness: the first-match theorem applied to the two concrete lists;
the outcome follows the list order. -/
theorem c1_first_match_wins_witness :
    ign__is_ignore [ruleOf "./**" true, ruleOf "t./keep.txt" true] keepEntry
      = Classification.ignored
    ∧ ign__is_ignore [ruleOf "t./keep.txt" true, ruleOf "./**" true] keepEntry
      = Classification.taken := by
  constructor
  · have h := c1_first_match_wins.1 [ruleOf "./**" true, ruleOf "t./keep.txt" true]
      keepEntry ⟨8, 1, 2, true⟩ 0 rfl rfl (by decide) (by decide) (by decide)
      (fun j hj => absurd hj (Nat.not_lt_zero j))
    exact h.trans (by decide)
  · have h := c1_first_match_wins.1 [ruleOf "t./keep.txt" true, ruleOf "./**" true]
      keepEntry ⟨8, 1, 2, true⟩ 0 rfl rfl (by decide) (by decide) (by decide)
      (fun j hj => absurd hj (Nat.not_lt_zero j))
    exact h.trans (by decide)

/-- C10: classify of an entry whose parent reference is null returns
Unclassified immediately, before the file-type test and before any rule is
consulted, for every rule list. -/
theorem c10_root_unclassified (rules : List IgnoreT) (sts : Estat)
    (h : sts.parentSt = none) : ign__is_ignore rules sts = .unclassified := by
  unfold ign__is_ignore
  rw [h]

/-- C10 witness: a concrete root entry whose path a rule matches, and whose
file type is even the ignored kind, still comes back Unclassified. -/
theorem c10_root_unclassified_witness :
    ign__is_ignore [ruleOf "./**" true]
      { parentSt := none, st := ⟨3, 0, 7, true⟩, path := strL "./x", ft_ignore := true }
      = .unclassified :=
  c10_root_unclassified _ _ rfl

/-- C6: compiling ./a/* translates the single * to the one-level wildcard
PCRE `[^ /]*` (no space; separator excluded), and the compiled matcher
accepts ./a/b and ./a/.hidden but not ./a/b/c. -/
theorem c6_single_star :
    (ign__translate (strL "./a/*")).1 = strL "\\./a/[^/]*$"
    ∧ globRuleMatches (strL "./a/*") (strL "./a/b") = true
    ∧ globRuleMatches (strL "./a/*") (strL "./a/.hidden") = true
    ∧ globRuleMatches (strL "./a/*") (strL "./a/b/c") = false := by
  exact ⟨by decide, by decide, by decide, by decide⟩

/-- C7 counterexample: ./\** contains a run of two consecutive *, yet the
pattern compiles with has_wildwildcard = false: the backslash escapes the
first star, so the translator sees only a single * wildcard. -/
theorem c7_counterexample :
    hasDoubleStar (strL "./\\**") = true
    ∧ (ign__new_rule (strL "./\\**") true).isOk = true
    ∧ (ruleOf "./\\**" true).has_wildwildcard = false
    ∧ (ign__translate (strL "./\\**")).1 = strL "\\./\\*[^/]*$" := by
  exact ⟨by decide, by decide, by decide, by decide⟩

/-- C7 (amended): whenever the translator, outside escape mode and outside
a bracket expression, reaches a * followed by another *, it emits a single
`.*` and records the unbounded wildcard, consuming the entire run of
consecutive stars; ./a/** therefore compiles with has_unbounded_wildcard,
extra stars collapse (./a/*** compiles identically), and the matcher
accepts descendants at every depth.  A ** hidden behind a backslash or
inside a bracket expression does not count. -/
theorem c7_double_star :
    (∀ (f : Nat) (rest : List Char),
      shellLoopF (f + 1) ('*' :: '*' :: rest) false =
        ('.' :: '*' :: (shellLoopF f (rest.dropWhile (fun x => x = '*')) false).1, true))
    ∧ (ruleOf "./a/**" true).has_wildwildcard = true
    ∧ (ign__translate (strL "./a/**")).1 = strL "\\./a/.*$"
    ∧ (ign__translate (strL "./a/***")).1 = (ign__translate (strL "./a/**")).1
    ∧ globRuleMatches (strL "./a/**") (strL "./a/b") = true
    ∧ globRuleMatches (strL "./a/**") (strL "./a/b/c") = true
    ∧ globRuleMatches (strL "./a/**") (strL "./a/b/c/d/e") = true := by
  refine ⟨fun f rest => rfl, by decide, by decide, by decide, by decide, by decide, by decide⟩

/-- C7 witness: the collapse equation at a concrete suffix. -/
theorem c7_double_star_witness :
    shellLoopF 5 ('*' :: '*' :: strL "ab") false =
      ('.' :: '*' :: (shellLoopF 4 ((strL "ab").dropWhile (fun x => x = '*')) false).1, true) :=
  c7_double_star.1 4 (strL "ab")

/-- C9: loading is all-or-nothing: any error leaves the rule list used for
matching empty.  The demo buffer declares two patterns of which the first
("./a") is valid and the second ("XYZ") is not: the load errors out and no
partially-loaded list remains.  A non-numeric header is also an error. -/
theorem c9_all_or_nothing :
    (∀ (buf : List Char) (e : IgnErr),
      ign__load_list buf = .error e → ign__load_result buf = [])
    ∧ ign__load_list demoBuf = .error .einval
    ∧ ign__load_result demoBuf = []
    ∧ (ign__new_rule (strL "./a") true).isOk = true
    ∧ ign__load_list (strL "notanumber\n") = .error .einval := by
  refine ⟨?_, by decide, by decide, by decide, by decide⟩
  intro buf e h
  unfold ign__load_result
  rw [h]

/-- C9 witness: the all-or-nothing consequence at the demo buffer. -/
theorem c9_all_or_nothing_witness : ign__load_result demoBuf = [] :=
  c9_all_or_nothing.1 demoBuf .einval (by decide)

/-- C8: inside a bracket expression, escaped mode copies the next character
blindly; a ! or ^ at the first content position becomes the regex negation
^ without counting as content; a ] closes the expression only once some
content has been consumed, so a ] in first content position is literal
content; every other character is copied through unchanged, a backslash
additionally arming one-shot escape mode.  The two evaluations show a
leading literal ] and an escaped ] end-to-end. -/
theorem c8_bracket_expr :
    (∀ (c : Char) (pos : Int), bracket_body c pos true = ([c], pos, false))
    ∧ bracket_body '!' 0 false = (['^'], 0, false)
    ∧ bracket_body '^' 0 false = (['^'], 0, false)
    ∧ (∀ pos : Int, 0 < pos → bracket_body ']' pos false = ([']'], -1, false))
    ∧ bracket_body ']' 0 false = ([']'], 1, false)
    ∧ (∀ (c : Char) (pos : Int), ¬(pos = 0 ∧ (c = '!' ∨ c = '^')) →
        ¬(c = ']' ∧ 0 < pos) →
        bracket_body c pos false = ([c], pos + 1, decide (c = '\\')))
    ∧ ign___translate_bracketed_expr (strL "[]a]b") (-1) false = (strL "[]a]", strL "b")
    ∧ ign___translate_bracketed_expr (strL "[\\]]c") (-1) false = (strL "[\\]]", strL "c") := by
  refine ⟨fun c pos => rfl, by decide, by decide, ?_, by decide, ?_, by decide, by decide⟩
  · intro pos hpos
    unfold bracket_body
    rw [if_neg, if_neg]
    · rw [if_pos ⟨rfl, hpos⟩]
      rfl
    · rintro ⟨h0, _⟩
      omega
    · simp
  · intro c pos h1 h2
    unfold bracket_body
    rw [if_neg, if_neg h1, if_neg h2]
    simp

/-- C8 witness: the three general clauses at concrete inputs. -/
theorem c8_bracket_expr_witness :
    bracket_body 'q' 3 true = (['q'], 3, false)
    ∧ bracket_body ']' 2 false = ([']'], -1, false)
    ∧ bracket_body 'q' 1 false = (['q'], 2, decide ('q' = '\\')) :=
  ⟨c8_bracket_expr.1 'q' 3,
   c8_bracket_expr.2.2.2.1 2 (by decide),
   c8_bracket_expr.2.2.2.2.2.1 'q' 1 (by decide) (by decide)⟩

/-- C3: whenever at least one character of the glob was consumed (the
source is nonempty, and the loop consumes everything), the translation ends
in the `$` anchor; when the original pattern's last character is the path
separator the ending is the `($|/)` group instead, which accepts end of
subject or a separator.  Concretely, ./a/ matches ./a itself and ./a/x
below it (but not ./ax), while ./a without the trailing separator matches
only the exact name. -/
theorem c3_end_anchor :
    (∀ (src : List Char) (c : Char), src.getLast? = some c →
        (c = PATH_SEPARATOR →
          ∃ pre, (ign__translate src).1 = pre ++ strL "($|/)")
      ∧ (c ≠ PATH_SEPARATOR → ∃ pre, (ign__translate src).1 = pre ++ ['$']))
    ∧ globRuleMatches (strL "./a/") (strL "./a") = true
    ∧ globRuleMatches (strL "./a/") (strL "./a/x") = true
    ∧ globRuleMatches (strL "./a/") (strL "./ax") = false
    ∧ globRuleMatches (strL "./a") (strL "./a") = true
    ∧ globRuleMatches (strL "./a") (strL "./a/x") = false
    ∧ globRuleMatches (strL "./a") (strL "./ab") = false := by
  refine ⟨?_, by decide, by decide, by decide, by decide, by decide, by decide⟩
  intro src c h
  constructor
  · intro hc
    refine ⟨(shellLoopF (src.length + 1) src false).1.dropLast, ?_⟩
    simp [ign__translate, h, hc]
  · intro hc
    refine ⟨(shellLoopF (src.length + 1) src false).1, ?_⟩
    simp [ign__translate, h, hc]

/-- C3 witness: the anchor clauses at concrete patterns. -/
theorem c3_end_anchor_witness :
    (∃ pre, (ign__translate (strL "./a/")).1 = pre ++ strL "($|/)")
    ∧ (∃ pre, (ign__translate (strL "./x")).1 = pre ++ ['$']) :=
  ⟨(c3_end_anchor.1 (strL "./a/") '/' (by decide)).1 rfl,
   (c3_end_anchor.1 (strL "./x") 'x' (by decide)).2 (by decide)⟩


/-- C5: a DEVICE rule compares the parent directory's device for directory
entries and the entry's own device otherwise; DEVICE:3 (comparator defaults
to equal, no minor given) matches exactly major = 3 whatever the minor,
DEVICE:<3 matches exactly the strictly smaller majors, and DEVICE:3:1
matches only major 3 with minor 1. -/
theorem c5_device_rules :
    ign__new_rule (strL "DEVICE:3") true = .ok devEq3
    ∧ ign__new_rule (strL "DEVICE:<3") true = .ok devLt3
    ∧ ign__new_rule (strL "DEVICE:3:1") true = .ok devEq31
    ∧ devEq3.compare = PAT_DEV__EQUAL ∧ devEq3.major = 3 ∧ devEq3.has_minor = false
    ∧ devLt3.compare = PAT_DEV__LESS ∧ devLt3.major = 3 ∧ devLt3.has_minor = false
    ∧ devEq31.compare = PAT_DEV__EQUAL ∧ devEq31.major = 3 ∧ devEq31.minor = 1
    ∧ devEq31.has_minor = true
    ∧ (∀ (own par : SStatT) (p : List Char),
        (ignMatchesEntry devEq3 ⟨some par, own, p, false⟩ par = true ↔
          (if own.isdir then par else own).dev_major = 3)
      ∧ (ignMatchesEntry devLt3 ⟨some par, own, p, false⟩ par = true ↔
          (if own.isdir then par else own).dev_major < 3)
      ∧ (ignMatchesEntry devEq31 ⟨some par, own, p, false⟩ par = true ↔
          ((if own.isdir then par else own).dev_major = 3
            ∧ (if own.isdir then par else own).dev_minor = 1))) := by
  refine ⟨rfl, rfl, rfl, rfl, rfl, rfl, rfl, rfl, rfl, rfl, rfl, rfl, rfl, ?_⟩
  intro own par p
  refine ⟨?_, ?_, ?_⟩
  · rw [show ignMatchesEntry devEq3 ⟨some par, own, p, false⟩ par =
        decide (ign___compare_dev (if own.isdir then par else own) devEq3 = 0) from rfl]
    simp only [decide_eq_true_eq]
    have hm : devEq3.major = 3 := rfl
    have hh : devEq3.has_minor = false := rfl
    unfold ign___compare_dev
    rw [hm, hh]
    split_ifs <;> simp_all <;> omega
  · rw [show ignMatchesEntry devLt3 ⟨some par, own, p, false⟩ par =
        decide (ign___compare_dev (if own.isdir then par else own) devLt3 < 0) from rfl]
    simp only [decide_eq_true_eq]
    have hm : devLt3.major = 3 := rfl
    have hh : devLt3.has_minor = false := rfl
    unfold ign___compare_dev
    rw [hm, hh]
    split_ifs <;> simp_all <;> omega
  · rw [show ignMatchesEntry devEq31 ⟨some par, own, p, false⟩ par =
        decide (ign___compare_dev (if own.isdir then par else own) devEq31 = 0) from rfl]
    simp only [decide_eq_true_eq]
    have hm : devEq31.major = 3 := rfl
    have hn : devEq31.minor = 1 := rfl
    have hh : devEq31.has_minor = true := rfl
    unfold ign___compare_dev
    rw [hm, hn, hh]
    split_ifs <;> simp_all <;> omega

/-- C5 witness: the rules applied through the theorem's equivalences at
concrete stats: a non-directory is judged by its own device, a directory by
its parent's. -/
theorem c5_device_rules_witness :
    ignMatchesEntry devEq3 ⟨some ⟨7, 7, 2, true⟩, ⟨3, 9, 5, false⟩, strL "./x", false⟩
      ⟨7, 7, 2, true⟩ = true
    ∧ ignMatchesEntry devEq3 ⟨some ⟨3, 0, 2, true⟩, ⟨9, 9, 5, true⟩, strL "./x", false⟩
      ⟨3, 0, 2, true⟩ = true
    ∧ ignMatchesEntry devLt3 ⟨some ⟨7, 7, 2, true⟩, ⟨2, 9, 5, false⟩, strL "./x", false⟩
      ⟨7, 7, 2, true⟩ = true
    ∧ ignMatchesEntry devEq31 ⟨some ⟨7, 7, 2, true⟩, ⟨3, 1, 5, false⟩, strL "./x", false⟩
      ⟨7, 7, 2, true⟩ = true :=
  ⟨((c5_device_rules.2.2.2.2.2.2.2.2.2.2.2.2.2 ⟨3, 9, 5, false⟩ ⟨7, 7, 2, true⟩
      (strL "./x")).1).mpr (by decide),
   ((c5_device_rules.2.2.2.2.2.2.2.2.2.2.2.2.2 ⟨9, 9, 5, true⟩ ⟨3, 0, 2, true⟩
      (strL "./x")).1).mpr (by decide),
   ((c5_device_rules.2.2.2.2.2.2.2.2.2.2.2.2.2 ⟨2, 9, 5, false⟩ ⟨7, 7, 2, true⟩
      (strL "./x")).2.1).mpr (by decide),
   ((c5_device_rules.2.2.2.2.2.2.2.2.2.2.2.2.2 ⟨3, 1, 5, false⟩ ⟨7, 7, 2, true⟩
      (strL "./x")).2.2).mpr (by decide)⟩

theorem findIdx_user_append (bs us : List IgnoreT)
    (hb : ∀ r ∈ bs, r.is_user_pat = false)
    (hu : ∀ r ∈ us, r.is_user_pat = true) :
    (bs ++ us).findIdx (fun r => r.is_user_pat) = bs.length := by
  induction bs with
  | nil =>
    cases us with
    | nil => rfl
    | cons u us2 =>
      have := hu u (by simp)
      simp [List.findIdx_cons, this]
  | cons b bs2 ih =>
    have hbb := hb b (by simp)
    simp only [List.cons_append, List.findIdx_cons, hbb, cond_false, List.length_cons]
    rw [ih (fun r hr => hb r (by simp [hr]))]

/-- C4 (amended): for a list whose built-in rules form the prefix `bs` and
whose user rules form the suffix `us`, inserting at Index(k) with
k ≤ user-rule count places the parsed new rules at positions
first-user-index + k .. first-user-index + k + count - 1, shifts every
following user rule down by count, and leaves the built-in prefix in place.
The range check of the at= command, however, compares k against the total
rule count (used_ignore_entries, built-ins included), not the user-rule
count: only k above the total is rejected with the InvalidRange EINVAL. -/
theorem c4_insert_at_index (bs us news : List IgnoreT) (texts : List (List Char))
    (k : Nat)
    (hb : ∀ r ∈ bs, r.is_user_pat = false)
    (hu : ∀ r ∈ us, r.is_user_pat = true)
    (hk : k ≤ us.length)
    (hp : parseNewRules texts true = .ok news) :
    ign__work_at (bs ++ us) (k : Int) texts
      = .ok (bs ++ us.take k ++ news ++ us.drop k)
    ∧ (bs ++ us.take k ++ news ++ us.drop k).take bs.length = bs
    ∧ (∀ j, j < news.length →
        (bs ++ us.take k ++ news ++ us.drop k)[bs.length + k + j]? = news[j]?)
    ∧ (∀ j, (bs ++ us.take k ++ news ++ us.drop k)[bs.length + k + news.length + j]?
        = us[k + j]?)
    ∧ (∀ k2 : Int, k2 > ((bs ++ us).length : Int) →
        ign__work_at (bs ++ us) k2 texts = .error .einval) := by
  have hlen : (bs ++ us).length = bs.length + us.length := by simp
  refine ⟨?_, ?_, ?_, ?_, ?_⟩
  · unfold ign__work_at
    rw [if_neg (by omega)]
    unfold ign__new_pattern
    by_cases hnil : (bs ++ us).length = 0
    · have happ := List.append_eq_nil.mp (List.length_eq_zero.mp hnil)
      have hbs : bs = [] := happ.1
      have hus : us = [] := happ.2
      subst hbs; subst hus
      rw [if_neg (by simp)]
      rw [hp]
      simp
    · rw [if_pos ⟨by
          simp only [PATTERN_POSITION_END]
          omega, by omega⟩]
      rw [findIdx_user_append bs us hb hu]
      have hcast : (((bs.length : Nat) : Int) + (k : Int)) = ((bs.length + k : Nat) : Int) := by
        push_cast; omega
      simp only [hcast, Int.toNat_natCast]
      rw [if_neg (by push_cast; omega)]
      rw [hp]
      have h1 : (bs ++ us).take (bs.length + k) = bs ++ us.take k := by
        rw [List.take_append_eq_append_take, List.take_of_length_le (by omega),
          Nat.add_sub_cancel_left]
      have h2 : (bs ++ us).drop (bs.length + k) = us.drop k := by
        rw [List.drop_append_eq_append_drop, List.drop_eq_nil_of_le (by omega),
          Nat.add_sub_cancel_left, List.nil_append]
      rw [h1, h2]
  · rw [List.append_assoc, List.append_assoc, List.take_left]
  · intro j hj
    rw [List.append_assoc, List.append_assoc]
    rw [List.getElem?_append_right (by omega)]
    have e1 : bs.length + k + j - bs.length = k + j := by omega
    rw [e1]
    have hlt : (us.take k).length = k := by
      rw [List.length_take]; omega
    rw [List.getElem?_append_right (by omega)]
    rw [hlt]
    have e2 : k + j - k = j := by omega
    rw [e2]
    rw [List.getElem?_append_left hj]
  · intro j
    rw [List.append_assoc, List.append_assoc]
    rw [List.getElem?_append_right (by omega)]
    have hlt : (us.take k).length = k := by
      rw [List.length_take]; omega
    rw [List.getElem?_append_right (by rw [hlt]; omega)]
    rw [hlt]
    rw [List.getElem?_append_right (by omega)]
    have e3 : bs.length + k + news.length + j - bs.length - k - news.length = j := by omega
    rw [e3]
    rw [List.getElem?_drop]
  · intro k2 h2
    unfold ign__work_at
    rw [if_pos h2]

/-- C4 counterexample: with one built-in and one user rule, the index k = 2
exceeds the user-rule count (1), yet the at= range check (k against the
total count 2) passes and the insertion runs past the end of the list — an
assertion/undefined-behaviour case, not the InvalidRange EINVAL the claim
requires. -/
theorem c4_counterexample :
    List.countP (fun r => r.is_user_pat) [demo_builtin_rule, demo_user_rule] = 1
    ∧ ign__work_at [demo_builtin_rule, demo_user_rule] 2 [strL "./c"] = .error .bug
    ∧ ign__work_at [demo_builtin_rule, demo_user_rule] 2 [strL "./c"]
        ≠ .error .einval := by
  exact ⟨by decide, by decide, by decide⟩

/-- C4 witness: inserting one parsed rule at k = 1 with one built-in and
one user rule appends behind the user rule; built-in prefix intact. -/
theorem c4_insert_at_index_witness :
    ign__work_at [demo_builtin_rule, demo_user_rule] ((1 : Nat) : Int) [strL "./c"]
      = .ok ([demo_builtin_rule] ++ [demo_user_rule].take 1 ++ [ruleOf "./c" true]
          ++ [demo_user_rule].drop 1) :=
  (c4_insert_at_index [demo_builtin_rule] [demo_user_rule] [ruleOf "./c" true]
    [strL "./c"] 1 (by decide) (by decide) (by decide) (by decide)).1

theorem takeWhile_append_all (p : Char → Bool) (l1 l2 : List Char)
    (h : ∀ c ∈ l1, p c = true) :
    (l1 ++ l2).takeWhile p = l1 ++ l2.takeWhile p := by
  induction l1 with
  | nil => simp
  | cons c l ih =>
    have hc := h c (by simp)
    simp [List.takeWhile_cons, hc, ih (fun x hx => h x (by simp [hx]))]

theorem dropWhile_append_all (p : Char → Bool) (l1 l2 : List Char)
    (h : ∀ c ∈ l1, p c = true) :
    (l1 ++ l2).dropWhile p = l2.dropWhile p := by
  induction l1 with
  | nil => simp
  | cons c l ih =>
    have hc := h c (by simp)
    simp [List.dropWhile_cons, hc, ih (fun x hx => h x (by simp [hx]))]

theorem init_pattern_leading_ws (w t : List Char)
    (hw : ∀ c ∈ w, isspaceC c = true) :
    ign___init_pattern_into (w ++ t) = ign___init_pattern_into t := by
  unfold ign___init_pattern_into
  rw [dropWhile_append_all isspaceC w t hw]

theorem digitChar_isDigit (m : Nat) : isDigitC (digitChar m) = true := by
  unfold digitChar
  split <;> decide

theorem digitChar_val (m : Nat) (h : m < 10) : (digitChar m).toNat - 48 = m := by
  interval_cases m <;> decide

theorem digit_not_space (c : Char) (h : isDigitC c = true) : isspaceC c = false := by
  by_contra hs
  rw [Bool.not_eq_false] at hs
  unfold isspaceC at hs
  unfold isDigitC at h
  rw [decide_eq_true_eq] at h
  simp only [Bool.or_eq_true, decide_eq_true_eq] at hs
  rcases hs with ((((hc | hc) | hc) | hc) | hc) | hc <;>
    (subst hc; exact absurd h (by decide))

theorem digit_ne_nl (c : Char) (h : isDigitC c = true) : c ≠ '\n' := by
  rintro rfl
  revert h
  decide

theorem natDigitsAux_digits (f : Nat) : ∀ n, n < f →
    ∀ c ∈ natDigitsAux f n, isDigitC c = true := by
  induction f with
  | zero => intro n h; exact absurd h (Nat.not_lt_zero n)
  | succ f ih =>
    intro n _ c hc
    unfold natDigitsAux at hc
    by_cases h10 : n < 10
    · rw [if_pos h10] at hc
      simp at hc
      subst hc
      exact digitChar_isDigit n
    · rw [if_neg h10] at hc
      rcases List.mem_append.mp hc with h1 | h1
      · exact ih (n / 10) (by omega) c h1
      · simp at h1
        subst h1
        exact digitChar_isDigit (n % 10)

theorem natDigits_ne_nil (n : Nat) : natDigits n ≠ [] := by
  unfold natDigits natDigitsAux
  split <;> simp

theorem natDigitsAux_foldl (f : Nat) : ∀ n a, n < f →
    (natDigitsAux f n).foldl (fun x c => x * 10 + (c.toNat - 48)) a
      = a * 10 ^ (natDigitsAux f n).length + n := by
  induction f with
  | zero => intro n a h; exact absurd h (Nat.not_lt_zero n)
  | succ f ih =>
    intro n a h
    unfold natDigitsAux
    by_cases h10 : n < 10
    · rw [if_pos h10]
      simp [digitChar_val n h10]
    · rw [if_neg h10]
      rw [List.foldl_append]
      rw [ih (n / 10) a (by omega)]
      simp only [List.foldl_cons, List.foldl_nil, List.length_append, List.length_singleton]
      rw [digitChar_val (n % 10) (by omega)]
      rw [pow_succ]
      ring_nf
      omega

theorem foldDigits_natDigits (n : Nat) : foldDigits (natDigits n) = n := by
  unfold foldDigits natDigits
  rw [natDigitsAux_foldl (n + 1) n 0 (Nat.lt_succ_self n)]
  simp

theorem afterFirstNL_append (l1 l2 : List Char) (h : ∀ c ∈ l1, c ≠ '\n') :
    afterFirstNL (l1 ++ '\n' :: l2) = some l2 := by
  induction l1 with
  | nil => simp [afterFirstNL]
  | cons c l ih =>
    have hc := h c (by simp)
    simp only [List.cons_append, afterFirstNL, hc, if_neg]
    exact ih (fun x hx => h x (by simp [hx]))

theorem parseUIntHeader_save (n : Nat) (body : List Char) :
    parseUIntHeader (natDigits n ++ '\n' :: body) = some n := by
  have hd : ∀ c ∈ natDigits n, isDigitC c = true :=
    natDigitsAux_digits (n + 1) n (Nat.lt_succ_self n)
  obtain ⟨c0, rest0, he⟩ : ∃ c0 rest0, natDigits n = c0 :: rest0 := by
    cases hh : natDigits n with
    | nil => exact absurd hh (natDigits_ne_nil n)
    | cons a b => exact ⟨a, b, rfl⟩
  have hc0 : isDigitC c0 = true := hd c0 (by rw [he]; exact List.mem_cons_self c0 rest0)
  have hc0s : isspaceC c0 = false := digit_not_space c0 hc0
  unfold parseUIntHeader
  rw [he, List.cons_append, List.dropWhile_cons, hc0s]
  simp only [Bool.false_eq_true, if_false]
  rw [← List.cons_append, ← he]
  rw [takeWhile_append_all isDigitC (natDigits n) ('\n' :: body) hd]
  rw [List.takeWhile_cons]
  simp only [show isDigitC '\n' = false from rfl, Bool.false_eq_true, if_false,
    List.append_nil]
  rw [if_neg (natDigits_ne_nil n)]
  rw [foldDigits_natDigits]

theorem loadLoop_roundtrip (rs : List IgnoreT) : ∀ (w : List Char),
    (∀ c ∈ w, isspaceC c = true ∧ c ≠ NUL) →
    (∀ r ∈ rs, GoodRule r = true) →
    ∃ out, loadLoop rs.length (w ++ flatBody rs) = .ok out
      ∧ out.map (fun r => r.pattern) = rs.map (fun r => r.pattern)
      ∧ ∀ r ∈ out, r.is_user_pat = true := by
  induction rs with
  | nil =>
    intro w _ _
    exact ⟨[], rfl, rfl, by simp⟩
  | cons r rs ih =>
    intro w hw hg
    have hgr := hg r (by simp)
    unfold GoodRule at hgr
    rw [Bool.and_eq_true] at hgr
    obtain ⟨hnul, hre⟩ := hgr
    rw [decide_eq_true_eq] at hnul
    cases hparse : ign___init_pattern_into r.pattern with
    | error e =>
      rw [hparse] at hre
      exact absurd hre (by simp)
    | ok r2 =>
      rw [hparse] at hre
      rw [decide_eq_true_eq] at hre
      have hbuf : w ++ flatBody (r :: rs)
          = (w ++ r.pattern) ++ (NUL :: '\n' :: flatBody rs) := by
        show w ++ (r :: rs).flatMap (fun r => r.pattern ++ [NUL, '\n']) = _
        rw [List.flatMap_cons]
        simp [flatBody, List.append_assoc]
      have hstr : ((w ++ r.pattern) ++ (NUL :: '\n' :: flatBody rs)).takeWhile
            (fun c => c ≠ NUL) = w ++ r.pattern := by
        rw [takeWhile_append_all _ (w ++ r.pattern) _ ?hall]
        case hall =>
          intro c hc
          rcases List.mem_append.mp hc with h1 | h1
          · exact decide_eq_true ((hw c h1).2)
          · refine decide_eq_true ?_
            intro heq
            exact hnul (heq ▸ h1)
        rw [List.takeWhile_cons]
        simp
      have hparse2 : ign__new_rule (w ++ r.pattern) true
          = .ok { r2 with is_user_pat := true } := by
        unfold ign__new_rule
        rw [init_pattern_leading_ws w r.pattern (fun c hc => (hw c hc).1), hparse]
      have hdrop : ((w ++ r.pattern) ++ (NUL :: '\n' :: flatBody rs)).drop
            ((w ++ r.pattern).length + 1) = '\n' :: flatBody rs := by
        rw [show (w ++ r.pattern) ++ (NUL :: '\n' :: flatBody rs)
            = ((w ++ r.pattern) ++ [NUL]) ++ ('\n' :: flatBody rs) from by
          simp [List.append_assoc]]
        rw [show (w ++ r.pattern).length + 1 = ((w ++ r.pattern) ++ [NUL]).length from by
          simp
          omega]
        exact List.drop_left _ _
      obtain ⟨out, hout, hmap, huser⟩ := ih ['\n'] (by
          intro c hc
          simp at hc
          subst hc
          exact ⟨rfl, by decide⟩)
        (fun x hx => hg x (by simp [hx]))
      refine ⟨{ r2 with is_user_pat := true } :: out, ?_, ?_, ?_⟩
      · show loadLoop (rs.length + 1) (w ++ flatBody (r :: rs)) = _
        rw [hbuf]
        unfold loadLoop
        simp only [hstr, hparse2, hdrop]
        rw [if_neg (by simp)]
        rw [show ('\n' :: flatBody rs) = ['\n'] ++ flatBody rs from rfl, hout]
      · simp only [List.map_cons, hmap, hre]
      · intro x hx
        rcases List.mem_cons.mp hx with h1 | h1
        · subst h1; rfl
        · exact huser x h1

/-- C2: save followed by load is a round trip: for every rule list whose
user rules are well-formed (NUL-free raw texts whose re-parse keeps the
text, which holds for every rule the parser itself produced), loading the
saved buffer succeeds and reproduces exactly the ordered sequence of
user-rule raw texts; every reloaded rule is a user rule, and the saved
output is identical to the saved output of the user rules alone, so
built-in rules appear in neither. -/
theorem c2_save_load_round_trip (rules : List IgnoreT)
    (h : ∀ r ∈ rules, r.is_user_pat = true → GoodRule r = true) :
    (∃ loaded, ign__load_list (ign__save_ignorelist rules) = .ok loaded
      ∧ loaded.map (fun r => r.pattern)
          = (rules.filter (fun r => r.is_user_pat)).map (fun r => r.pattern)
      ∧ ∀ r ∈ loaded, r.is_user_pat = true)
    ∧ ign__save_ignorelist rules
        = ign__save_ignorelist (rules.filter (fun r => r.is_user_pat)) := by
  have hgood : ∀ r ∈ rules.filter (fun r => r.is_user_pat), GoodRule r = true := by
    intro r hr
    have hm := List.mem_filter.mp hr
    exact h r hm.1 (by simpa using hm.2)
  have hsave : ign__save_ignorelist rules
      = natDigits (rules.filter (fun r => r.is_user_pat)).length ++ '\n'
          :: flatBody (rules.filter (fun r => r.is_user_pat)) := by
    unfold ign__save_ignorelist flatBody
    simp
  constructor
  · rw [hsave]
    have hdig : ∀ c ∈ natDigits (rules.filter (fun r => r.is_user_pat)).length, c ≠ '\n' :=
      fun c hc => digit_ne_nl c
        (natDigitsAux_digits _ _ (Nat.lt_succ_self _) c hc)
    unfold ign__load_list
    rw [afterFirstNL_append _ _ hdig, parseUIntHeader_save]
    obtain ⟨out, hout, hmap, huser⟩ :=
      loadLoop_roundtrip (rules.filter (fun r => r.is_user_pat)) [] (by simp) hgood
    rw [List.nil_append] at hout
    exact ⟨out, hout, hmap, huser⟩
  · unfold ign__save_ignorelist
    rw [List.filter_filter]
    simp

/-- C2 witness: the round trip of a list holding one built-in and one user
rule: only the user rule's text is saved and reloaded. -/
theorem c2_save_load_round_trip_witness :
    (∃ loaded,
      ign__load_list (ign__save_ignorelist [demo_builtin_rule, demo_user_rule]) = .ok loaded
      ∧ loaded.map (fun r => r.pattern)
          = ([demo_builtin_rule, demo_user_rule].filter
              (fun r => r.is_user_pat)).map (fun r => r.pattern)
      ∧ ∀ r ∈ loaded, r.is_user_pat = true)
    ∧ ign__save_ignorelist [demo_builtin_rule, demo_user_rule]
        = ign__save_ignorelist ([demo_builtin_rule, demo_user_rule].filter
            (fun r => r.is_user_pat)) :=
  c2_save_load_round_trip [demo_builtin_rule, demo_user_rule] (by decide)
